import Mathlib

/-!
Verification of the permission-aggregation tool in collaborators.go.

The Go program fetches, for one GitHub organization, the team hierarchy,
the non-archived repositories, and per repository the collaborator edges
with their permission sources, and aggregates the sources into one
permission map per repository.  The network layer is out of scope; the
pure algorithms (key derivation, the aggregation fold of getCollaborators,
the parent-chain walk of getTeamFullnames, and the cursor pagination loop)
are embedded below, faithful to the Go source, and the stated properties
are settled against them.
-/

namespace Collaborators

/-- The Permission enum of collaborators.go: PermNONE, PermREAD, PermWRITE,
PermADMIN. -/
inductive Permission where
  | NONE
  | READ
  | WRITE
  | ADMIN
deriving DecidableEq, Repr

/-- One entry of a permissionSources list: the permission together with the
three source fields of the GraphQL inline fragments (Org login, Repo name,
Team slug).  As in the Go struct, all three strings are present and the
empty string marks an unpopulated field. -/
structure PermissionSource where
  permission : Permission
  org : String
  repo : String
  team : String
deriving DecidableEq, Repr

/-- One collaborator edge: the login of the user and the ordered list of
permission sources the backend reports for them. -/
structure CollaboratorEdge where
  login : String
  permissionSources : List PermissionSource
deriving DecidableEq, Repr

/-- Go map lookup, modelled on an association list: the first binding of the
key wins. -/
def mapLookup {α : Type} : List (String × α) → String → Option α
  | [], _ => none
  | (k, v) :: rest, key => if k = key then some v else mapLookup rest key

/-- Go map assignment, modelled on an association list: replace the first
binding of the key in place, or append a new binding. -/
def mapInsert {α : Type} : List (String × α) → String → α → List (String × α)
  | [], key, v => [(key, v)]
  | (k, w) :: rest, key, v =>
    if k = key then (key, v) :: rest else (k, w) :: mapInsert rest key v

/-- Go map read with the zero-value default: `teamFullnames[slug]` yields ""
when the slug is absent. -/
def lookupStr (m : List (String × String)) (key : String) : String :=
  (mapLookup m key).getD ""

/-- strings.HasPrefix, on strings modelled as their character lists. -/
def strStartsWith (s p : String) : Bool :=
  p.data.isPrefixOf s.data

/-- Payload of the mismatch error of getCollaborators:
fmt.Errorf("mismatch for reponame=%q collaborator=%q : %q != %q",
reponame, key, val, source.Permission). -/
structure AggError where
  reponame : String
  key : String
  oldPerm : Permission
  newPerm : Permission
deriving DecidableEq, Repr

/-- The per-edge loop state of getCollaborators: the isOrgOwner flag, the
skippedSources set, and the shared result map ret. -/
structure EdgeState where
  isOrgOwner : Bool
  skipped : List String
  ret : List (String × Permission)
deriving DecidableEq, Repr

/-- The key-derivation switch of getCollaborators: an Org source keys as
"org:<login>", a Team source as "team:<full name>" (empty full name when the
slug is absent from teamFullnames), a Repo source as "user:<collaborator
login>", and a source with no populated field leaves the key empty. -/
def deriveKey (teamFullnames : List (String × String)) (login : String)
    (s : PermissionSource) : String :=
  if s.org ≠ "" then "org:" ++ s.org
  else if s.team ≠ "" then "team:" ++ lookupStr teamFullnames s.team
  else if s.repo ≠ "" then "user:" ++ login
  else ""

/-- The merge step of getCollaborators (the final if of the source loop):
keep an equal or fresh value, resolve a WRITE/ADMIN collision to ADMIN when
the Go condition holds — note the Go operator precedence, which attaches the
team-key test only to the WRITE-then-ADMIN disjunct — and report a mismatch
otherwise. -/
def mergeStep (reponame : String) (st : EdgeState) (key : String)
    (perm : Permission) : Except AggError EdgeState :=
  match mapLookup st.ret key with
  | some val =>
    if val ≠ perm then
      if (strStartsWith key "team:" ∧ val = .WRITE ∧ perm = .ADMIN)
          ∨ (val = .ADMIN ∧ perm = .WRITE) then
        .ok { st with ret := mapInsert st.ret key .ADMIN }
      else
        .error ⟨reponame, key, val, perm⟩
    else
      .ok { st with ret := mapInsert st.ret key perm }
  | none => .ok { st with ret := mapInsert st.ret key perm }

/-- One iteration of the source loop of getCollaborators: derive the key,
short-circuit the ambient organization source (setting isOrgOwner on ADMIN),
apply the org-owner ADMIN suppression, and otherwise merge. -/
def processSource (teamFullnames : List (String × String))
    (orgname reponame login : String) (st : EdgeState)
    (s : PermissionSource) : Except AggError EdgeState :=
  let key := deriveKey teamFullnames login s
  if key = "org:" ++ orgname then
    .ok { st with isOrgOwner := if s.permission = .ADMIN then true else st.isOrgOwner }
  else if st.isOrgOwner = true ∧ key ∉ st.skipped ∧ s.permission = .ADMIN then
    .ok { st with skipped := key :: st.skipped }
  else
    mergeStep reponame st key s.permission

/-- The source loop of getCollaborators over one permissionSources list. -/
def processSources (teamFullnames : List (String × String))
    (orgname reponame login : String) :
    EdgeState → List PermissionSource → Except AggError EdgeState
  | st, [] => .ok st
  | st, s :: rest =>
    match processSource teamFullnames orgname reponame login st s with
    | .error e => .error e
    | .ok st2 => processSources teamFullnames orgname reponame login st2 rest

/-- The edge loop of getCollaborators: ret is shared across edges, while
isOrgOwner and skippedSources restart per collaborator. -/
def processEdges (teamFullnames : List (String × String))
    (orgname reponame : String) :
    List (String × Permission) → List CollaboratorEdge →
    Except AggError (List (String × Permission))
  | ret, [] => .ok ret
  | ret, e :: rest =>
    match processSources teamFullnames orgname reponame e.login
        ⟨false, [], ret⟩ e.permissionSources with
    | .error err => .error err
    | .ok st => processEdges teamFullnames orgname reponame st.ret rest

/-- The aggregation of getCollaborators, given the already-fetched
collaborator edges. -/
def getCollaborators (teamFullnames : List (String × String))
    (orgname reponame : String) (edges : List CollaboratorEdge) :
    Except AggError (List (String × Permission)) :=
  processEdges teamFullnames orgname reponame [] edges

/-- One raw team record of getTeamFullnames: the slug and the optional
parent-team slug. -/
structure TeamInfo where
  slug : String
  parentTeam : Option String
deriving DecidableEq, Repr

/-- The teamParents map built by the fetch loop of getTeamFullnames:
teamParents[slug] = parentSlug for each node with a non-nil parent, in
arrival order. -/
def buildTeamParents (teams : List TeamInfo) : List (String × String) :=
  teams.foldl
    (fun m t =>
      match t.parentTeam with
      | some p => mapInsert m t.slug p
      | none => m)
    []

/-- Go read of the teamParents map: absent slugs yield "". -/
def parentOf (teamParents : List (String × String)) (slug : String) : String :=
  lookupStr teamParents slug

/-- The inner parent-chain walk of getTeamFullnames, with explicit fuel since
the Go loop has no cycle or depth guard: starting from full and tip, while
tip is nonempty look up its parent, prepend it (with "/") to full when
nonempty, and move tip to the parent.  none means the fuel ran out before
the loop exited, which models nontermination of the Go loop. -/
def walkChain (parents : String → String) : Nat → String → String → Option String
  | 0, _, _ => none
  | fuel + 1, full, tip =>
    if tip = "" then some full
    else
      let parent := parents tip
      walkChain parents fuel (if parent = "" then full else parent ++ "/" ++ full) parent

/-- The full name computed by getTeamFullnames for one slug: the walk started
with full = tip = slug. -/
def teamFullname (parents : String → String) (fuel : Nat) (slug : String) :
    Option String :=
  walkChain parents fuel slug slug

/-- n-fold application of the parent function, following the walk direction. -/
def iterParent (parents : String → String) : Nat → String → String
  | 0, s => s
  | n + 1, s => iterParent parents n (parents s)

/-- One page of a cursor-paginated response: the nodes plus the pageInfo
fields consumed by the loop condition (the end cursor is threaded back
opaquely and plays no role in the control flow). -/
structure Page (α : Type) where
  nodes : List α
  hasNextPage : Bool
  endCursor : String
deriving DecidableEq, Repr

/-- The cursor-pagination loop of getTeamFullnames and getRepos, run against
a mock backend given as the list of responses it returns call by call.
The loop always issues the first call (the cursor starts unset), accumulates
the nodes of each successful page, keeps calling while hasNextPage is true,
and on an error returns it immediately, discarding all nodes.  The result
pairs the outcome with the number of fetch calls performed; none means the
loop was still requesting pages when the mock response list ran out. -/
def paginate {α E : Type} : List (Except E (Page α)) →
    Option (Except E (List α) × Nat)
  | [] => none
  | .error e :: _ => some (.error e, 1)
  | .ok page :: rest =>
    if page.hasNextPage then
      match paginate rest with
      | none => none
      | some (.error e, n) => some (.error e, n + 1)
      | some (.ok nodes, n) => some (.ok (page.nodes ++ nodes), n + 1)
    else
      some (.ok page.nodes, 1)

/-! Helper lemmas about the string keys and the association-list maps. -/

theorem team_key_ne_org_key (s t : String) : "team:" ++ s ≠ "org:" ++ t := by
  intro h
  have h2 : ("team:" ++ s).data = ("org:" ++ t).data := congrArg String.data h
  rw [String.data_append, String.data_append] at h2
  simp at h2

theorem user_key_ne_org_key (s t : String) : "user:" ++ s ≠ "org:" ++ t := by
  intro h
  have h2 : ("user:" ++ s).data = ("org:" ++ t).data := congrArg String.data h
  rw [String.data_append, String.data_append] at h2
  simp at h2

theorem strStartsWith_team_append (s : String) :
    strStartsWith ("team:" ++ s) "team:" = true := by
  unfold strStartsWith
  rw [String.data_append]
  simp [List.isPrefixOf_iff_prefix]

theorem mapLookup_insert_self {α : Type} (m : List (String × α)) (k : String) (v : α) :
    mapLookup (mapInsert m k v) k = some v := by
  induction m with
  | nil => simp [mapInsert, mapLookup]
  | cons kv rest ih =>
    obtain ⟨k0, v0⟩ := kv
    by_cases hk : k0 = k
    · simp [mapInsert, hk, mapLookup]
    · simp [mapInsert, hk, mapLookup, ih]

theorem mapInsert_eq_of_lookup {α : Type} (m : List (String × α)) (k : String) (v : α)
    (h : mapLookup m k = some v) : mapInsert m k v = m := by
  induction m with
  | nil => simp [mapLookup] at h
  | cons kv rest ih =>
    obtain ⟨k0, v0⟩ := kv
    by_cases hk : k0 = k
    · subst hk
      simp [mapLookup] at h
      simp [mapInsert, h]
    · simp [mapLookup, hk] at h
      simp [mapInsert, hk, ih h]

theorem notMem_mapInsert {α : Type} (m : List (String × α)) (k a : String) (v : α)
    (hne : k ≠ a) (h : ∀ q : α, (a, q) ∉ m) : ∀ q : α, (a, q) ∉ mapInsert m k v := by
  induction m with
  | nil =>
    intro q hq
    simp [mapInsert] at hq
    exact hne (hq.1.symm ▸ rfl)
  | cons kv rest ih =>
    obtain ⟨k0, v0⟩ := kv
    intro q hq
    by_cases hk : k0 = k
    · simp [mapInsert, hk] at hq
      rcases hq with hq | hq
      · exact hne hq.1.symm
      · exact h q (List.mem_cons_of_mem _ hq)
    · simp [mapInsert, hk] at hq
      rcases hq with hq | hq
      · exact h q (by simp [hq])
      · exact ih (fun q2 hq2 => h q2 (List.mem_cons_of_mem _ hq2)) q hq

theorem team_colon_ne_org_key (t : String) : "team:" ≠ "org:" ++ t := by
  have h := team_key_ne_org_key "" t
  simpa using h

/-! Helper lemmas about the parent-chain walk. -/

theorem walkChain_some_of_iter (p : String → String) :
    ∀ (n : Nat) (tip full : String), iterParent p n tip = "" →
      ∃ r, walkChain p (n + 1) full tip = some r := by
  intro n
  induction n with
  | zero =>
    intro tip full h
    simp [iterParent] at h
    subst h
    exact ⟨full, rfl⟩
  | succ n ih =>
    intro tip full h
    by_cases htip : tip = ""
    · subst htip
      exact ⟨full, by simp [walkChain]⟩
    · simp [iterParent] at h
      obtain ⟨r, hr⟩ := ih (p tip) (if p tip = "" then full else p tip ++ "/" ++ full) h
      refine ⟨r, ?_⟩
      simp [walkChain, htip]
      exact hr

theorem walkChain_none_of_iter_ne (p : String → String) :
    ∀ (fuel : Nat) (tip full : String), (∀ n, iterParent p n tip ≠ "") →
      walkChain p fuel full tip = none := by
  intro fuel
  induction fuel with
  | zero => intro tip full _; rfl
  | succ fuel ih =>
    intro tip full h
    have htip : tip ≠ "" := h 0
    simp [walkChain, htip]
    exact ih (p tip) _ (fun n => h (n + 1))

/-! Helper lemmas about the merge and suppression steps of the aggregator. -/

theorem mergeStep_ok_cases (rn : String) (st st2 : EdgeState) (key : String) (perm : Permission)
    (h : mergeStep rn st key perm = .ok st2) :
    st2.isOrgOwner = st.isOrgOwner ∧ st2.skipped = st.skipped ∧
    ((st2.ret = mapInsert st.ret key perm) ∨
     (st2.ret = mapInsert st.ret key .ADMIN ∧ mapLookup st.ret key = some .ADMIN ∧
      perm = .WRITE)) := by
  unfold mergeStep at h
  split at h
  next val hval =>
    split at h
    next hne =>
      split at h
      next hq =>
        cases h
        rcases hq with ⟨_, _, hpA⟩ | ⟨hvA, hpW⟩
        · exact ⟨rfl, rfl, .inl (by rw [hpA])⟩
        · exact ⟨rfl, rfl, .inr ⟨rfl, by rw [← hvA]; exact hval, hpW⟩⟩
      · cases h
    next hne =>
      cases h
      exact ⟨rfl, rfl, .inl rfl⟩
  next hval =>
    cases h
    exact ⟨rfl, rfl, .inl rfl⟩

theorem mergeStep_idem (rn : String) (st st2 : EdgeState) (key : String) (perm : Permission)
    (h : mergeStep rn st key perm = .ok st2) : mergeStep rn st2 key perm = .ok st2 := by
  obtain ⟨-, -, hret⟩ := mergeStep_ok_cases rn st st2 key perm h
  rcases hret with hret | ⟨hret, hlk, hpW⟩
  · have hl2 : mapLookup st2.ret key = some perm := by
      rw [hret]; exact mapLookup_insert_self _ _ _
    unfold mergeStep
    rw [hl2]
    simp [mapInsert_eq_of_lookup _ _ _ hl2]
  · have hl2 : mapLookup st2.ret key = some .ADMIN := by
      rw [hret]; exact mapLookup_insert_self _ _ _
    subst hpW
    unfold mergeStep
    rw [hl2]
    simp [mapInsert_eq_of_lookup _ _ _ hl2]

theorem processSource_idem (tf : List (String × String)) (orgname rn login : String)
    (st st2 : EdgeState) (s : PermissionSource)
    (hns : ¬ (deriveKey tf login s ≠ "org:" ++ orgname ∧ st.isOrgOwner = true ∧
              deriveKey tf login s ∉ st.skipped ∧ s.permission = .ADMIN))
    (h : processSource tf orgname rn login st s = .ok st2) :
    processSource tf orgname rn login st2 s = .ok st2 := by
  simp only [processSource] at h ⊢
  by_cases hamb : deriveKey tf login s = "org:" ++ orgname
  · rw [if_pos hamb] at h ⊢
    cases h
    by_cases hA : s.permission = .ADMIN
    · simp [hA]
    · simp [hA]
  · rw [if_neg hamb] at h ⊢
    have hguard : ¬ (st.isOrgOwner = true ∧ deriveKey tf login s ∉ st.skipped ∧
        s.permission = .ADMIN) := fun hg => hns ⟨hamb, hg⟩
    rw [if_neg hguard] at h
    obtain ⟨hown, hskip, -⟩ := mergeStep_ok_cases _ _ _ _ _ h
    have hguard2 : ¬ (st2.isOrgOwner = true ∧ deriveKey tf login s ∉ st2.skipped ∧
        s.permission = .ADMIN) := by
      rw [hown, hskip]; exact hguard
    rw [if_neg hguard2]
    exact mergeStep_idem rn st st2 _ _ h

theorem processSources_append (tf : List (String × String)) (orgname rn login : String)
    (st : EdgeState) (l1 l2 : List PermissionSource) :
    processSources tf orgname rn login st (l1 ++ l2)
      = match processSources tf orgname rn login st l1 with
        | .error e => .error e
        | .ok st2 => processSources tf orgname rn login st2 l2 := by
  induction l1 generalizing st with
  | nil => simp [processSources]
  | cons s rest ih =>
    simp only [List.cons_append, processSources]
    cases processSource tf orgname rn login st s with
    | error e => rfl
    | ok st2 => exact ih st2

theorem processSource_preserves_absent (tf : List (String × String))
    (orgname rn login : String) (st st2 : EdgeState) (s : PermissionSource)
    (h : processSource tf orgname rn login st s = .ok st2)
    (habs : ∀ q : Permission, ("org:" ++ orgname, q) ∉ st.ret) :
    ∀ q : Permission, ("org:" ++ orgname, q) ∉ st2.ret := by
  simp only [processSource] at h
  by_cases hamb : deriveKey tf login s = "org:" ++ orgname
  · rw [if_pos hamb] at h
    cases h
    exact habs
  · rw [if_neg hamb] at h
    by_cases hg : st.isOrgOwner = true ∧ deriveKey tf login s ∉ st.skipped ∧
        s.permission = .ADMIN
    · rw [if_pos hg] at h
      cases h
      exact habs
    · rw [if_neg hg] at h
      obtain ⟨-, -, hret⟩ := mergeStep_ok_cases _ _ _ _ _ h
      rcases hret with hret | ⟨hret, -, -⟩ <;> rw [hret] <;>
        exact notMem_mapInsert _ _ _ _ hamb habs

theorem processSources_preserves_absent (tf : List (String × String))
    (orgname rn login : String) :
    ∀ (srcs : List PermissionSource) (st st2 : EdgeState),
    processSources tf orgname rn login st srcs = .ok st2 →
    (∀ q : Permission, ("org:" ++ orgname, q) ∉ st.ret) →
    ∀ q : Permission, ("org:" ++ orgname, q) ∉ st2.ret := by
  intro srcs
  induction srcs with
  | nil =>
    intro st st2 h habs
    cases h
    exact habs
  | cons s rest ih =>
    intro st st2 h habs
    simp only [processSources] at h
    cases hps : processSource tf orgname rn login st s with
    | error e => rw [hps] at h; cases h
    | ok stm =>
      rw [hps] at h
      exact ih stm st2 h (processSource_preserves_absent tf orgname rn login st stm s hps habs)

theorem processEdges_preserves_absent (tf : List (String × String)) (orgname rn : String) :
    ∀ (edges : List CollaboratorEdge) (ret0 m : List (String × Permission)),
    processEdges tf orgname rn ret0 edges = .ok m →
    (∀ q : Permission, ("org:" ++ orgname, q) ∉ ret0) →
    ∀ q : Permission, ("org:" ++ orgname, q) ∉ m := by
  intro edges
  induction edges with
  | nil =>
    intro ret0 m h habs
    cases h
    exact habs
  | cons e rest ih =>
    intro ret0 m h habs
    simp only [processEdges] at h
    cases hps : processSources tf orgname rn e.login ⟨false, [], ret0⟩ e.permissionSources with
    | error err => rw [hps] at h; cases h
    | ok st =>
      rw [hps] at h
      exact ih st.ret m h
        (processSources_preserves_absent tf orgname rn e.login e.permissionSources _ st hps habs)

theorem processSource_suppresses (tf : List (String × String)) (orgname rn login : String)
    (st : EdgeState) (s : PermissionSource)
    (hamb : deriveKey tf login s ≠ "org:" ++ orgname)
    (hown : st.isOrgOwner = true) (hmem : deriveKey tf login s ∉ st.skipped)
    (hA : s.permission = .ADMIN) :
    processSource tf orgname rn login st s
      = .ok { st with skipped := deriveKey tf login s :: st.skipped } := by
  simp only [processSource]
  rw [if_neg hamb, if_pos ⟨hown, hmem, hA⟩]

theorem processSource_after_skip (tf : List (String × String)) (orgname rn login : String)
    (st : EdgeState) (s : PermissionSource)
    (hamb : deriveKey tf login s ≠ "org:" ++ orgname)
    (hmem : deriveKey tf login s ∈ st.skipped) :
    processSource tf orgname rn login st s
      = mergeStep rn st (deriveKey tf login s) s.permission := by
  simp only [processSource]
  rw [if_neg hamb, if_neg (fun hg => hg.2.1 hmem)]

theorem processSource_skipped_mono (tf : List (String × String)) (orgname rn login : String)
    (st st2 : EdgeState) (s : PermissionSource)
    (h : processSource tf orgname rn login st s = .ok st2) :
    ∀ k ∈ st.skipped, k ∈ st2.skipped := by
  simp only [processSource] at h
  by_cases hamb : deriveKey tf login s = "org:" ++ orgname
  · rw [if_pos hamb] at h
    cases h
    exact fun k hk => hk
  · rw [if_neg hamb] at h
    by_cases hg : st.isOrgOwner = true ∧ deriveKey tf login s ∉ st.skipped ∧
        s.permission = .ADMIN
    · rw [if_pos hg] at h
      cases h
      exact fun k hk => List.mem_cons_of_mem _ hk
    · rw [if_neg hg] at h
      obtain ⟨-, hskip, -⟩ := mergeStep_ok_cases _ _ _ _ _ h
      rw [hskip]
      exact fun k hk => hk

theorem processSources_skipped_mono (tf : List (String × String)) (orgname rn login : String) :
    ∀ (srcs : List PermissionSource) (st st2 : EdgeState),
    processSources tf orgname rn login st srcs = .ok st2 →
    ∀ k ∈ st.skipped, k ∈ st2.skipped := by
  intro srcs
  induction srcs with
  | nil =>
    intro st st2 h
    cases h
    exact fun k hk => hk
  | cons s rest ih =>
    intro st st2 h
    simp only [processSources] at h
    cases hps : processSource tf orgname rn login st s with
    | error e => rw [hps] at h; cases h
    | ok stm =>
      rw [hps] at h
      exact fun k hk =>
        ih stm st2 h k (processSource_skipped_mono tf orgname rn login st stm s hps k hk)

/-! The claims. -/

/-- Claim C1.  The claim states that a differing value under an
already-present key aborts aggregation with a conflict whenever the key is
not team-scoped with values exactly WRITE and ADMIN.  The code disagrees
because of Go operator precedence on the resolution condition: the
team-key test binds only to the WRITE-then-ADMIN disjunct, so an
ADMIN-then-WRITE collision resolves to ADMIN on every key.  First conjunct:
at the failing input (collaborator bob with two repo-tagged sources, key
user:bob, ADMIN then WRITE) aggregation succeeds with ADMIN instead of
aborting.  Second conjunct: at the example of the claim (READ then WRITE)
aggregation does abort with the conflict naming the repository and key
user:bob, as stated. -/
theorem c1_precedence_nonteam_admin_write_no_conflict :
    getCollaborators [] "ACME" "repo1"
        [⟨"bob", [⟨.ADMIN, "", "repo1", ""⟩, ⟨.WRITE, "", "repo1", ""⟩]⟩]
      = .ok [("user:bob", .ADMIN)] ∧
    getCollaborators [] "ACME" "repo1"
        [⟨"bob", [⟨.READ, "", "repo1", ""⟩, ⟨.WRITE, "", "repo1", ""⟩]⟩]
      = .error ⟨"repo1", "user:bob", .READ, .WRITE⟩ :=
  ⟨rfl, rfl⟩

/-- Claim C2.  For a non-owner collaborator, a team-scoped key whose sources
carry WRITE and ADMIN in either arrival order resolves to ADMIN without an
error.  First two conjuncts: the merge rule itself, on any state whose map
already holds the other value under the team key.  Last two conjuncts: the
end-to-end aggregation of the two-source lists in both orders yields
exactly the singleton map with ADMIN under the derived team key. -/
theorem c2_team_write_admin_resolves_admin (tf : List (String × String))
    (orgname rn login T fn : String) (st : EdgeState) (hT : T ≠ "") :
    (mapLookup st.ret ("team:" ++ fn) = some .WRITE →
      mergeStep rn st ("team:" ++ fn) .ADMIN
        = .ok { st with ret := mapInsert st.ret ("team:" ++ fn) .ADMIN }) ∧
    (mapLookup st.ret ("team:" ++ fn) = some .ADMIN →
      mergeStep rn st ("team:" ++ fn) .WRITE
        = .ok { st with ret := mapInsert st.ret ("team:" ++ fn) .ADMIN }) ∧
    getCollaborators tf orgname rn
        [⟨login, [⟨.WRITE, "", "", T⟩, ⟨.ADMIN, "", "", T⟩]⟩]
      = .ok [("team:" ++ lookupStr tf T, .ADMIN)] ∧
    getCollaborators tf orgname rn
        [⟨login, [⟨.ADMIN, "", "", T⟩, ⟨.WRITE, "", "", T⟩]⟩]
      = .ok [("team:" ++ lookupStr tf T, .ADMIN)] := by
  refine ⟨?_, ?_, ?_, ?_⟩
  · intro hlk
    simp [mergeStep, hlk, strStartsWith_team_append]
  · intro hlk
    simp [mergeStep, hlk]
  · simp [getCollaborators, processEdges, processSources, processSource, deriveKey,
      mergeStep, mapLookup, mapInsert, hT, team_key_ne_org_key, strStartsWith_team_append]
  · simp [getCollaborators, processEdges, processSources, processSource, deriveKey,
      mergeStep, mapLookup, mapInsert, hT, team_key_ne_org_key, strStartsWith_team_append]

/-- Witness for C2: a concrete instantiation with the root team T. -/
theorem c2_witness :
    (mapLookup (EdgeState.mk false [] [("team:T", .WRITE)]).ret ("team:" ++ "T")
        = some .WRITE →
      mergeStep "r" ⟨false, [], [("team:T", .WRITE)]⟩ ("team:" ++ "T") .ADMIN
        = .ok ⟨false, [], [("team:T", .ADMIN)]⟩) ∧
    (mapLookup (EdgeState.mk false [] [("team:T", .WRITE)]).ret ("team:" ++ "T")
        = some .ADMIN →
      mergeStep "r" ⟨false, [], [("team:T", .WRITE)]⟩ ("team:" ++ "T") .WRITE
        = .ok ⟨false, [], [("team:T", .ADMIN)]⟩) ∧
    getCollaborators [("T", "T")] "ACME" "r"
        [⟨"u", [⟨.WRITE, "", "", "T"⟩, ⟨.ADMIN, "", "", "T"⟩]⟩]
      = .ok [("team:" ++ lookupStr [("T", "T")] "T", .ADMIN)] ∧
    getCollaborators [("T", "T")] "ACME" "r"
        [⟨"u", [⟨.ADMIN, "", "", "T"⟩, ⟨.WRITE, "", "", "T"⟩]⟩]
      = .ok [("team:" ++ lookupStr [("T", "T")] "T", .ADMIN)] :=
  c2_team_write_admin_resolves_admin [("T", "T")] "ACME" "r" "u" "T" "T"
    ⟨false, [], [("team:T", .WRITE)]⟩ (by decide)

/-- Claim C3, counterexample.  Aggregation is not idempotent as stated: for
an org owner, duplicating the repo-tagged ADMIN tuple changes the result,
because the first copy is consumed by the owner suppression while the
second copy is merged.  Processing the duplicated list yields the map with
user:alice at ADMIN, processing the single occurrence yields the empty
map. -/
theorem c3_counterexample :
    getCollaborators [] "ACME" "r"
        [⟨"alice", [⟨.ADMIN, "ACME", "", ""⟩, ⟨.ADMIN, "", "r", ""⟩, ⟨.ADMIN, "", "r", ""⟩]⟩]
      ≠ getCollaborators [] "ACME" "r"
        [⟨"alice", [⟨.ADMIN, "ACME", "", ""⟩, ⟨.ADMIN, "", "r", ""⟩]⟩] := by
  intro h
  rw [show getCollaborators [] "ACME" "r"
        [⟨"alice", [⟨.ADMIN, "ACME", "", ""⟩, ⟨.ADMIN, "", "r", ""⟩, ⟨.ADMIN, "", "r", ""⟩]⟩]
      = .ok [("user:alice", .ADMIN)] from rfl,
    show getCollaborators [] "ACME" "r"
        [⟨"alice", [⟨.ADMIN, "ACME", "", ""⟩, ⟨.ADMIN, "", "r", ""⟩]⟩]
      = .ok [] from rfl] at h
  simp at h

/-- Claim C3, amended.  Aggregation is idempotent whenever the org-owner
ADMIN suppression does not fire on the duplicated tuple: if the state st1
reached after the prefix does not satisfy the suppression guard for the
tuple t, then processing the list with t duplicated consecutively equals
processing it with t once. -/
theorem c3_idempotent_without_suppression (tf : List (String × String))
    (orgname rn login : String) (st1 : EdgeState)
    (pre suf : List PermissionSource) (t : PermissionSource)
    (hpre : processSources tf orgname rn login ⟨false, [], []⟩ pre = .ok st1)
    (hns : ¬ (deriveKey tf login t ≠ "org:" ++ orgname ∧ st1.isOrgOwner = true ∧
              deriveKey tf login t ∉ st1.skipped ∧ t.permission = .ADMIN)) :
    getCollaborators tf orgname rn [⟨login, pre ++ t :: t :: suf⟩]
      = getCollaborators tf orgname rn [⟨login, pre ++ t :: suf⟩] := by
  have core : processSources tf orgname rn login ⟨false, [], []⟩ (pre ++ t :: t :: suf)
      = processSources tf orgname rn login ⟨false, [], []⟩ (pre ++ t :: suf) := by
    rw [processSources_append, processSources_append, hpre]
    simp only [processSources]
    cases hps : processSource tf orgname rn login st1 t with
    | error e => rfl
    | ok st2 =>
      simp only [processSources, processSource_idem tf orgname rn login st1 st2 t hns hps]
  unfold getCollaborators processEdges
  rw [core]

/-- Witness for C3: duplicating a READ repo-tagged tuple for a non-owner
leaves the aggregation result unchanged. -/
theorem c3_witness :
    getCollaborators [] "ACME" "r" [⟨"u", [⟨.READ, "", "r", ""⟩, ⟨.READ, "", "r", ""⟩]⟩]
      = getCollaborators [] "ACME" "r" [⟨"u", [⟨.READ, "", "r", ""⟩]⟩] :=
  c3_idempotent_without_suppression [] "ACME" "r" "u" ⟨false, [], []⟩ [] []
    ⟨.READ, "", "r", ""⟩ rfl (by decide)

/-- Claim C4.  A collaborator whose sources are the ambient org ADMIN
followed by a repo-tagged ADMIN aggregates to the empty map: the ambient
source is skipped while setting the owner flag, and the owner bypass then
suppresses the user-level ADMIN. -/
theorem c4_owner_bypass_empty_map (tf : List (String × String))
    (orgname rn login repo : String) (ho : orgname ≠ "") (hr : repo ≠ "") :
    getCollaborators tf orgname rn
        [⟨login, [⟨.ADMIN, orgname, "", ""⟩, ⟨.ADMIN, "", repo, ""⟩]⟩] = .ok [] := by
  simp [getCollaborators, processEdges, processSources, processSource, deriveKey,
    mergeStep, mapLookup, mapInsert, ho, hr, user_key_ne_org_key]

/-- Witness for C4: the ACME owner alice. -/
theorem c4_witness :
    getCollaborators [] "ACME" "r"
        [⟨"alice", [⟨.ADMIN, "ACME", "", ""⟩, ⟨.ADMIN, "", "repo1", ""⟩]⟩] = .ok [] :=
  c4_owner_bypass_empty_map [] "ACME" "r" "alice" "repo1" (by decide) (by decide)

/-- Claim C5.  The ambient organization key never appears in the output of
the aggregator: whenever aggregation succeeds with map m, no pair keyed
"org:" followed by the queried organization login is a member of m, for any
permission value. -/
theorem c5_ambient_org_key_never_in_output (tf : List (String × String))
    (orgname rn : String) (edges : List CollaboratorEdge)
    (m : List (String × Permission)) (q : Permission)
    (h : getCollaborators tf orgname rn edges = .ok m) :
    ("org:" ++ orgname, q) ∉ m :=
  processEdges_preserves_absent tf orgname rn edges [] m h (by simp) q

/-- Witness for C5: a successful concrete aggregation whose output cannot
contain the ambient key org:ACME. -/
theorem c5_witness :
    ("org:" ++ "ACME", Permission.READ) ∉ [("user:alice", Permission.READ)] :=
  c5_ambient_org_key_never_in_output [] "ACME" "r"
    [⟨"alice", [⟨.READ, "", "r", ""⟩]⟩] [("user:alice", .READ)] .READ rfl

/-- Claim C6.  The owner ADMIN suppression fires at most once per key.
First conjunct: when the guard holds (owner set, non-ambient key not yet
skipped, permission ADMIN) the source is discarded and the key is recorded
in skippedSources, the result map untouched.  Second conjunct: a source
whose non-ambient key is already in skippedSources is handled by the merge
rule instead of being suppressed again.  Third conjunct: skippedSources
only grows along a scan, so a recorded key stays recorded for the rest of
the collaborator. -/
theorem c6_suppression_at_most_once_per_key :
    (∀ (tf : List (String × String)) (orgname rn login : String)
       (st : EdgeState) (s : PermissionSource),
       deriveKey tf login s ≠ "org:" ++ orgname → st.isOrgOwner = true →
       deriveKey tf login s ∉ st.skipped → s.permission = .ADMIN →
       processSource tf orgname rn login st s
         = .ok { st with skipped := deriveKey tf login s :: st.skipped }) ∧
    (∀ (tf : List (String × String)) (orgname rn login : String)
       (st : EdgeState) (s : PermissionSource),
       deriveKey tf login s ≠ "org:" ++ orgname →
       deriveKey tf login s ∈ st.skipped →
       processSource tf orgname rn login st s
         = mergeStep rn st (deriveKey tf login s) s.permission) ∧
    (∀ (tf : List (String × String)) (orgname rn login : String)
       (srcs : List PermissionSource) (st st2 : EdgeState),
       processSources tf orgname rn login st srcs = .ok st2 →
       ∀ k ∈ st.skipped, k ∈ st2.skipped) :=
  ⟨fun tf orgname rn login st s => processSource_suppresses tf orgname rn login st s,
   fun tf orgname rn login st s => processSource_after_skip tf orgname rn login st s,
   fun tf orgname rn login srcs st st2 =>
     processSources_skipped_mono tf orgname rn login srcs st st2⟩

/-- Witness for C6: a concrete owner state in which the repo-tagged ADMIN
source is suppressed once, a second occurrence reaches the merge rule, and
a recorded key survives a scan. -/
theorem c6_witness :
    processSource [] "ACME" "r" "u" ⟨true, [], []⟩ ⟨.ADMIN, "", "r", ""⟩
      = .ok ⟨true, ["user:u"], []⟩ ∧
    processSource [] "ACME" "r" "u" ⟨true, ["user:u"], []⟩ ⟨.ADMIN, "", "r", ""⟩
      = mergeStep "r" ⟨true, ["user:u"], []⟩ ("user:" ++ "u") .ADMIN ∧
    "user:u" ∈ (EdgeState.mk true ["user:u"] [] : EdgeState).skipped :=
  ⟨c6_suppression_at_most_once_per_key.1 [] "ACME" "r" "u" ⟨true, [], []⟩
      ⟨.ADMIN, "", "r", ""⟩ (by decide) rfl (by decide) rfl,
   c6_suppression_at_most_once_per_key.2.1 [] "ACME" "r" "u" ⟨true, ["user:u"], []⟩
      ⟨.ADMIN, "", "r", ""⟩ (by decide) (by decide),
   c6_suppression_at_most_once_per_key.2.2 [] "ACME" "r" "u" []
      ⟨true, ["user:u"], []⟩ ⟨true, ["user:u"], []⟩ rfl "user:u" (by decide)⟩

/-- Claim C7.  The parent-chain resolution of getTeamFullnames, over any
parent map read with the Go zero-value default (modelled as the total
function p): a slug with no parent resolves to itself, and a chain
root to P1 to P2 to T resolves T to root/P1/P2/T. -/
theorem c7_team_fullname_root_and_chain :
    (∀ (p : String → String) (slug : String), p slug = "" →
       teamFullname p 2 slug = some slug) ∧
    (∀ (p : String → String) (root P1 P2 T : String),
       root ≠ "" → P1 ≠ "" → P2 ≠ "" → T ≠ "" →
       p T = P2 → p P2 = P1 → p P1 = root → p root = "" →
       teamFullname p 5 T = some (root ++ "/" ++ P1 ++ "/" ++ P2 ++ "/" ++ T)) := by
  constructor
  · intro p slug h
    by_cases hs : slug = ""
    · subst hs; simp [teamFullname, walkChain]
    · simp [teamFullname, walkChain, hs, h]
  · intro p root P1 P2 T hr h1 h2 hT hpT hpP2 hpP1 hproot
    simp [teamFullname, walkChain, hT, hpT, h2, hpP2, h1, hpP1, hr, hproot,
      String.append_assoc]

/-- Witness for C7: the concrete four-team forest, with the parent map built
by buildTeamParents exactly as the fetch loop does. -/
theorem c7_witness :
    teamFullname (parentOf (buildTeamParents
        [⟨"root", none⟩, ⟨"P1", some "root"⟩, ⟨"P2", some "P1"⟩, ⟨"T", some "P2"⟩]))
        2 "root" = some "root" ∧
    teamFullname (parentOf (buildTeamParents
        [⟨"root", none⟩, ⟨"P1", some "root"⟩, ⟨"P2", some "P1"⟩, ⟨"T", some "P2"⟩]))
        5 "T" = some ("root" ++ "/" ++ "P1" ++ "/" ++ "P2" ++ "/" ++ "T") :=
  ⟨c7_team_fullname_root_and_chain.1 (parentOf (buildTeamParents
      [⟨"root", none⟩, ⟨"P1", some "root"⟩, ⟨"P2", some "P1"⟩, ⟨"T", some "P2"⟩]))
      "root" (by decide),
   c7_team_fullname_root_and_chain.2 (parentOf (buildTeamParents
      [⟨"root", none⟩, ⟨"P1", some "root"⟩, ⟨"P2", some "P1"⟩, ⟨"T", some "P2"⟩]))
      "root" "P1" "P2" "T" (by decide) (by decide) (by decide) (by decide)
      (by decide) (by decide) (by decide) (by decide)⟩

/-- Claim C8.  The walk of getTeamFullnames terminates exactly on parent
chains that reach a root: if iterating the parent function from the slug
reaches the empty string (no parent, or a parent slug absent from the map,
which reads as the zero value), some finite fuel makes the walk return a
result; and with no guard in the loop, a slug whose parent chain never
reaches the empty string (a cyclic parent graph) makes the walk return
none at every fuel, the model of nontermination. -/
theorem c8_walk_terminates_iff_chain_reaches_root :
    (∀ (p : String → String) (slug : String), (∃ n, iterParent p n slug = "") →
       ∃ fuel r, teamFullname p fuel slug = some r) ∧
    (∀ (p : String → String) (slug : String), (∀ n, iterParent p n slug ≠ "") →
       ∀ fuel, teamFullname p fuel slug = none) := by
  constructor
  · intro p slug ⟨n, hn⟩
    obtain ⟨r, hr⟩ := walkChain_some_of_iter p n slug slug hn
    exact ⟨n + 1, r, hr⟩
  · intro p slug h fuel
    exact walkChain_none_of_iter_ne p fuel slug slug h

/-- Witness for C8: a parentless slug terminates; the two-cycle between a
and b never terminates. -/
theorem c8_witness :
    (∃ fuel r, teamFullname (fun _ => "") fuel "a" = some r) ∧
    teamFullname (fun s => if s = "a" then "b" else if s = "b" then "a" else "") 7 "a"
      = none := by
  constructor
  · exact c8_walk_terminates_iff_chain_reaches_root.1 (fun _ => "") "a" ⟨1, rfl⟩
  · refine c8_walk_terminates_iff_chain_reaches_root.2
      (fun s => if s = "a" then "b" else if s = "b" then "a" else "") "a" ?_ 7
    have hab : ∀ (n : Nat) (s : String), s = "a" ∨ s = "b" →
        iterParent (fun s => if s = "a" then "b" else if s = "b" then "a" else "") n s = "a"
        ∨ iterParent (fun s => if s = "a" then "b" else if s = "b" then "a" else "") n s
            = "b" := by
      intro n
      induction n with
      | zero =>
        intro s hs
        simpa [iterParent] using hs
      | succ n ih =>
        intro s hs
        rcases hs with h | h <;> subst h <;> simp only [iterParent] <;> norm_num
        · exact ih "b" (Or.inr rfl)
        · exact ih "a" (Or.inl rfl)
    intro n
    rcases hab n "a" (Or.inl rfl) with h | h <;> simp [h]

/-- Claim C9.  The pagination loop over a mock backend: N pages of which
only the last reports hasNextPage false yield exactly N fetch calls and the
concatenation of all page nodes in order, with any further queued responses
never consumed; and an error response is propagated the moment it is
received, with no nodes returned. -/
theorem c9_pagination_traversal (α E : Type) :
    (∀ (front : List (Page α)) (lastPage : Page α) (rest : List (Except E (Page α))),
       (∀ q ∈ front, q.hasNextPage = true) → lastPage.hasNextPage = false →
       paginate (((front ++ [lastPage]).map Except.ok) ++ rest)
         = some (.ok ((front ++ [lastPage]).map Page.nodes).flatten, front.length + 1)) ∧
    (∀ (front : List (Page α)) (e : E) (rest : List (Except E (Page α))),
       (∀ q ∈ front, q.hasNextPage = true) →
       paginate ((front.map Except.ok) ++ (.error e :: rest))
         = some (.error e, front.length + 1)) := by
  constructor
  · intro front lastPage rest hfront hlast
    induction front with
    | nil => simp [paginate, hlast]
    | cons q qs ih =>
      have hq : q.hasNextPage = true := hfront q (by simp)
      have ih2 := ih (fun r hr => hfront r (by simp [hr]))
      simp at ih2
      simp [paginate, hq, ih2]
  · intro front e rest hfront
    induction front with
    | nil => simp [paginate]
    | cons q qs ih =>
      have hq : q.hasNextPage = true := hfront q (by simp)
      have ih2 := ih (fun r hr => hfront r (by simp [hr]))
      simp at ih2
      simp [paginate, hq, ih2]

/-- Witness for C9: two pages of sizes 2 and 1 yield the three nodes in
order with two calls and leave a queued extra page unconsumed, and an early
error propagates with no nodes. -/
theorem c9_witness :
    paginate (((([⟨[1, 2], true, "cur1"⟩] : List (Page Nat))
          ++ ([⟨[3], false, "cur2"⟩] : List (Page Nat))).map Except.ok)
        ++ [Except.error "boom", Except.ok (⟨[9], false, "cur3"⟩ : Page Nat)])
      = some (.ok [1, 2, 3], 2) ∧
    paginate ((([⟨[1, 2], true, "cur1"⟩] : List (Page Nat)).map Except.ok)
        ++ (.error "boom" :: ([] : List (Except String (Page Nat)))))
      = some (.error "boom", 2) :=
  ⟨(c9_pagination_traversal Nat String).1 [⟨[1, 2], true, "cur1"⟩] ⟨[3], false, "cur2"⟩
      [Except.error "boom", Except.ok ⟨[9], false, "cur3"⟩] (by decide) rfl,
   (c9_pagination_traversal Nat String).2 [⟨[1, 2], true, "cur1"⟩] "boom" [] (by decide)⟩

/-- Claim C10.  A team-tagged source whose slug is absent from teamFullnames
does not fail: its key is "team:" with the empty full path, so distinct
unknown slugs of one collaborator collide under that single key.  First
conjunct: the derived key.  Second conjunct: two unknown slugs with equal
permissions merge to one entry under "team:".  Third conjunct: two unknown
slugs with READ and WRITE are conflict-checked against each other and abort
naming key "team:". -/
theorem c10_unknown_team_slug_empty_path_collision (tf : List (String × String))
    (orgname rn login X Y : String) (perm : Permission) (hX : X ≠ "") (hY : Y ≠ "")
    (hlX : mapLookup tf X = none) (hlY : mapLookup tf Y = none) :
    deriveKey tf login ⟨perm, "", "", X⟩ = "team:" ∧
    getCollaborators tf orgname rn
        [⟨login, [⟨.READ, "", "", X⟩, ⟨.READ, "", "", Y⟩]⟩] = .ok [("team:", .READ)] ∧
    getCollaborators tf orgname rn
        [⟨login, [⟨.READ, "", "", X⟩, ⟨.WRITE, "", "", Y⟩]⟩]
      = .error ⟨rn, "team:", .READ, .WRITE⟩ := by
  refine ⟨?_, ?_, ?_⟩ <;>
    simp [getCollaborators, processEdges, processSources, processSource, deriveKey,
      lookupStr, mergeStep, mapLookup, mapInsert, hX, hY, hlX, hlY, team_colon_ne_org_key]

/-- Witness for C10: unknown slugs X and Y with an empty teamFullnames
mapping. -/
theorem c10_witness :
    deriveKey [] "u" ⟨Permission.READ, "", "", "X"⟩ = "team:" ∧
    getCollaborators [] "ACME" "r"
        [⟨"u", [⟨.READ, "", "", "X"⟩, ⟨.READ, "", "", "Y"⟩]⟩] = .ok [("team:", .READ)] ∧
    getCollaborators [] "ACME" "r"
        [⟨"u", [⟨.READ, "", "", "X"⟩, ⟨.WRITE, "", "", "Y"⟩]⟩]
      = .error ⟨"r", "team:", .READ, .WRITE⟩ :=
  c10_unknown_team_slug_empty_path_collision [] "ACME" "r" "u" "X" "Y" .READ
    (by decide) (by decide) rfl rfl

end Collaborators
